import Mathlib

/-!
# HyperDex timestamp value type

A shallow embedding of `common/datatype_timestamp.cc` and the properties the
specification states about it.

Conventions of the embedding

* a `uint8_t` is a `Fin 256`; an `e::slice` (pointer + length view) is the list
  of the bytes it views, so `size()` is `List.length` and `empty()` is
  `List.isEmpty`;
* an `int64_t` is an `Int` in `[-2^63, 2^63)`, a `uint64_t`/`size_t` a `Nat`
  below `2^64`; conversions between them are written out with `% 2^64`;
* memory that is written through a raw pointer (`writeto`, `ptr`) is a total
  map from addresses to bytes and a pointer is an address (`Nat`);
* an `assert` that fails, an out-of-bounds table read and a division the C
  standard leaves undefined make the function return `none`.
-/

set_option autoImplicit false
set_option linter.dupNamespace false

namespace HyperDex

/-! ## Machine words, bytes and memory -/

/-- A `uint8_t`. -/
abbrev Byte := Fin 256

/-- An `e::slice`, given by the bytes it views. -/
abbrev slice := List Byte

/-- An `enum hyperdatatype` value. -/
abbrev hyperdatatype := Nat

/-- Byte-addressed memory. -/
abbrev Mem := Nat → Byte

/-- The values an `int64_t` can hold. -/
def is_int64 (x : Int) : Prop := -(2 ^ 63) ≤ x ∧ x < 2 ^ 63

instance (x : Int) : Decidable (is_int64 x) := by
  unfold is_int64
  infer_instance

/-- Conversion `int64_t → uint64_t` (value modulo `2^64`). -/
def to_uint64 (x : Int) : Nat := (x % 2 ^ 64).toNat

/-- Conversion `uint64_t → int64_t` (two's complement). -/
def to_int64 (u : Nat) : Int :=
  if u % 2 ^ 64 < 2 ^ 63 then ((u % 2 ^ 64 : Nat) : Int) else ((u % 2 ^ 64 : Nat) : Int) - 2 ^ 64

/-- The `n` low-order bytes of `v`, least significant first. -/
def le_bytes : Nat → Nat → List Byte
  | 0, _ => []
  | n + 1, v => ⟨v % 256, Nat.mod_lt v (by decide)⟩ :: le_bytes n (v / 256)

/-- The number a byte string denotes, least significant byte first. -/
def le_val : List Byte → Nat
  | [] => 0
  | b :: bs => b.val + 256 * le_val bs

/-- The `n` bytes of memory starting at address `p`. -/
def read (mem : Mem) (p n : Nat) : List Byte :=
  (List.range n).map (fun i => mem (p + i))

/-- Memory after the bytes `bs` have been copied to address `p`. -/
def store (mem : Mem) (p : Nat) (bs : List Byte) : Mem :=
  fun a => if a < p then mem a else (bs[a - p]?).getD (mem a)

/-- The 8-byte little-endian two's-complement encoding of an `int64_t`; on a
little-endian host this is also the object representation read through
`(const char*)&timestamp`. -/
def encode (x : Int) : slice := le_bytes 8 (to_uint64 x)

/-- Modelled from the spec: `e::unpack64le` of `<e/endian.h>` is declared outside
the source files; it reads 8 bytes as a little-endian two's-complement signed
64-bit integer. -/
def unpack64le (data : List Byte) : Int := to_int64 (le_val (data.take 8))

/-- Modelled from the spec: `e::pack64le` of `<e/endian.h>` is declared outside
the source files; it writes the 8 little-endian bytes of the integer at
`writeto` and returns the pointer advanced past them. -/
def pack64le (x : Int) (mem : Mem) (writeto : Nat) : Mem × Nat :=
  (store mem writeto (encode x), writeto + 8)

/-- Signed 64-bit `/`: truncates toward zero; undefined for a zero divisor and
for `INT64_MIN / -1`. -/
def sdiv64 (a b : Int) : Option Int :=
  if b = 0 ∨ (a = -(2 ^ 63) ∧ b = -1) then none else some (Int.tdiv a b)

/-- Signed 64-bit `%`: remainder of the truncating division; undefined where
the division is. -/
def smod64 (a b : Int) : Option Int :=
  if b = 0 ∨ (a = -(2 ^ 63) ∧ b = -1) then none else some (Int.tmod a b)

/-- Reading element `i` of a C array; outside the array the read is undefined. -/
def array_get (tbl : List Int) (i : Int) : Option Int :=
  if 0 ≤ i then tbl[i.toNat]? else none

/-! ## The file-local decoder -/

/-- The `unpack` of the anonymous namespace. -/
def unpack (value : slice) : Option Int :=
  if value.length = 8 ∨ value.isEmpty = true then
    if value.isEmpty = true then some 0 else some (unpack64le value)
  else none

/-! ## Mutation requests -/

/-- The three fields of a `funcall` this file reads. `name` is the `funcall_t`
enumerator as an integer; the enumerator `FUNC_SET`, declared outside the
source files, is a parameter of the functions that mention it. -/
structure funcall where
  name : Nat
  arg1 : slice
  arg1_datatype : hyperdatatype
deriving DecidableEq

/-! ## The class `datatype_timestamp` -/

/-- An instance of `datatype_timestamp`: its only state is the type tag. -/
structure datatype_timestamp where
  m_type : hyperdatatype
deriving DecidableEq

/-- The global table `lookup_interesting`. -/
def lookup_interesting : List Int :=
  [1, 60, 3600, 24 * 60 * 60, 7 * 24 * 60 * 60, 30 * 7 * 24 * 60 * 60]

/-- The file-static `compare`. -/
def compare (lhs rhs : slice) : Option Int := do
  let lhsnum ← unpack lhs
  let rhsnum ← unpack rhs
  if lhsnum < rhsnum then pure (-1)
  else if lhsnum > rhsnum then pure 1
  else pure 0

/-- The file-static `compare_less`. -/
def compare_less (lhs rhs : slice) : Option Bool := do
  let c ← compare lhs rhs
  pure (decide (c < 0))

namespace datatype_timestamp

/-- The method `datatype()`. -/
def datatype (self : datatype_timestamp) : hyperdatatype := self.m_type

/-- The method `validate`. -/
def validate (value : slice) : Bool :=
  value.length == 8 || value.isEmpty

/-- The method `check_args`. -/
def check_args (FUNC_SET : Nat) (self : datatype_timestamp) (func : funcall) : Bool :=
  func.name == FUNC_SET && func.arg1_datatype == self.datatype && validate func.arg1

/-- The loop of `apply`: every request asserts its name and replaces the
running value with its decoded argument. -/
def apply_loop (FUNC_SET : Nat) : List funcall → Int → Option Int
  | [], timestamp => some timestamp
  | func :: rest, _ =>
    if func.name = FUNC_SET then (unpack func.arg1).bind (apply_loop FUNC_SET rest) else none

/-- The method `apply`: the memory after the call and the returned pointer. -/
def apply (FUNC_SET : Nat) (old_value : slice) (funcs : List funcall)
    (mem : Mem) (writeto : Nat) : Option (Mem × Nat) := do
  let timestamp ← unpack old_value
  let timestamp ← apply_loop FUNC_SET funcs timestamp
  pure (pack64le timestamp mem writeto)

/-- The method `hashable`. -/
def hashable : Bool := true

/-- The method `hash`. `CityHash64`, declared in `cityhash/city.h`, is a
parameter: any function from byte strings to 64-bit words. -/
def hash (CityHash64 : List Byte → Nat) (self : datatype_timestamp) (value : slice) :
    Option Nat := do
  let timestamp ← unpack value
  let interesting_bits ← array_get lookup_interesting (((self.m_type &&& 7 : Nat) : Int) - 1)
  let extra ← smod64 timestamp interesting_bits
  let timestamp ← sdiv64 timestamp interesting_bits
  pure ((CityHash64 (encode timestamp) % 2 ^ 64 + to_uint64 extra) % 2 ^ 64)

/-- The method `indexable`. -/
def indexable : Bool := true

/-- The method `containable`. -/
def containable : Bool := true

/-- The method `step`: the returned flag, `*ptr` and `*elem` after the call. -/
def step (mem : Mem) (ptr end_ : Nat) (elem : slice) : Bool × Nat × slice :=
  if (((end_ : Int) - (ptr : Int)) % 2 ^ 64).toNat < 8 then (false, ptr, elem)
  else (true, ptr + 8, read mem ptr 8)

/-- The method `write`: the memory after the `memmove` and the returned pointer. -/
def write (mem : Mem) (writeto : Nat) (elem : slice) : Mem × Nat :=
  (store mem writeto elem, writeto + elem.length)

/-- The method `comparable`. -/
def comparable : Bool := true

/-- The method `compare`, which forwards to the file-static one. -/
def compare (lhs rhs : slice) : Option Int := HyperDex.compare lhs rhs

/-- The method `compare_less`, which returns the file-static predicate. -/
def compare_less : slice → slice → Option Bool := HyperDex.compare_less

end datatype_timestamp

/-- The constructor `datatype_timestamp::datatype_timestamp`: it stores the tag
and asserts that the container type of the tag is the generic timestamp type.
The macro `CONTAINER_TYPE` and the enumerator
`HYPERDATATYPE_TIMESTAMP_GENERIC`, declared outside the source files, are
parameters. -/
def datatype_timestamp.datatype_timestamp (CONTAINER_TYPE : hyperdatatype → hyperdatatype)
    (HYPERDATATYPE_TIMESTAMP_GENERIC : hyperdatatype) (t : hyperdatatype) :
    Option datatype_timestamp :=
  if CONTAINER_TYPE t = HYPERDATATYPE_TIMESTAMP_GENERIC then some ⟨t⟩ else none

/-- Modelled from the spec: the macro `CONTAINER_TYPE` is declared outside the
source files. For a timestamp tag "the low 3 bits additionally select a bucket
interval and the remaining bits identify the generic timestamp family", so the
family of a tag is the tag with its low 3 bits cleared. -/
def CONTAINER_TYPE (t : hyperdatatype) : hyperdatatype := t - (t &&& 7)

/-- Repeated `step` over `[ptr, end_)`: call `step` until it returns false,
collecting the elements it yields; the result is the list of elements and the
cursor at the failing call. `fuel` bounds the number of calls; with the fuel
used up the result is `none`. -/
def step_all (mem : Mem) (end_ : Nat) : Nat → Nat → slice → Option (List slice × Nat)
  | 0, _, _ => none
  | fuel + 1, ptr, elem =>
    match datatype_timestamp.step mem ptr end_ elem with
    | (false, p, _) => some ([], p)
    | (true, p, e) => (step_all mem end_ fuel p e).map (fun r => (e :: r.1, r.2))

/-! ## Facts about the byte codec and memory -/

theorem le_bytes_length (n v : Nat) : (le_bytes n v).length = n := by
  induction n generalizing v with
  | zero => rfl
  | succ n ih => simp [le_bytes, ih]

theorem le_val_le_bytes (n v : Nat) : le_val (le_bytes n v) = v % 256 ^ n := by
  induction n generalizing v with
  | zero => simp [le_bytes, le_val, Nat.mod_one]
  | succ n ih =>
    simp only [le_bytes, le_val, ih]
    rw [pow_succ, Nat.mul_comm (256 ^ n) 256, Nat.mod_mul]

theorem le_bytes_le_val (bs : List Byte) : le_bytes bs.length (le_val bs) = bs := by
  induction bs with
  | nil => rfl
  | cons b bs ih =>
    have hb : b.val < 256 := b.isLt
    have h1 : (b.val + 256 * le_val bs) % 256 = b.val := by omega
    have h2 : (b.val + 256 * le_val bs) / 256 = le_val bs := by omega
    simp only [List.length_cons, le_bytes, le_val, h2, ih, List.cons.injEq, and_true]
    exact Fin.ext h1

theorem le_val_lt (bs : List Byte) : le_val bs < 256 ^ bs.length := by
  induction bs with
  | nil => simp [le_val]
  | cons b bs ih =>
    have hb : b.val < 256 := b.isLt
    simp only [le_val, List.length_cons, pow_succ]
    omega

theorem to_uint64_lt (x : Int) : to_uint64 x < 2 ^ 64 := by
  unfold to_uint64
  have h1 : 0 ≤ x % 2 ^ 64 := Int.emod_nonneg _ (by norm_num)
  have h2 : x % 2 ^ 64 < 2 ^ 64 := Int.emod_lt_of_pos _ (by norm_num)
  omega

theorem to_int64_to_uint64 (x : Int) (hx : is_int64 x) : to_int64 (to_uint64 x) = x := by
  unfold is_int64 at hx
  unfold to_int64 to_uint64
  have h1 : 0 ≤ x % 2 ^ 64 := Int.emod_nonneg _ (by norm_num)
  have h2 : x % 2 ^ 64 < 2 ^ 64 := Int.emod_lt_of_pos _ (by norm_num)
  have h3 : ((x % 2 ^ 64).toNat) % 2 ^ 64 = (x % 2 ^ 64).toNat := Nat.mod_eq_of_lt (by omega)
  rw [h3]
  split <;> omega

theorem to_int64_range (u : Nat) : is_int64 (to_int64 u) := by
  unfold is_int64 to_int64
  have h : u % 2 ^ 64 < 2 ^ 64 := Nat.mod_lt _ (by norm_num)
  split <;> omega

theorem to_uint64_to_int64 (u : Nat) (hu : u < 2 ^ 64) : to_uint64 (to_int64 u) = u := by
  unfold to_int64 to_uint64
  rw [Nat.mod_eq_of_lt hu]
  split <;> omega

theorem encode_length (x : Int) : (encode x).length = 8 := le_bytes_length 8 _

theorem unpack64le_encode (x : Int) (hx : is_int64 x) : unpack64le (encode x) = x := by
  have hl : (encode x).take 8 = encode x := List.take_of_length_le (by rw [encode_length])
  unfold unpack64le
  rw [hl]
  unfold encode
  rw [le_val_le_bytes, Nat.mod_eq_of_lt (by simpa using to_uint64_lt x)]
  exact to_int64_to_uint64 x hx

theorem encode_unpack64le (v : slice) (hv : v.length = 8) : encode (unpack64le v) = v := by
  have hl : v.take 8 = v := List.take_of_length_le (by omega)
  have hlt : le_val v < 2 ^ 64 := by
    have := le_val_lt v
    rw [hv] at this
    simpa using this
  unfold unpack64le encode
  rw [hl, to_uint64_to_int64 _ hlt, ← hv]
  exact le_bytes_le_val v

theorem unpack_nil : unpack [] = some 0 := rfl

theorem unpack_of_length_eight (v : slice) (hv : v.length = 8) :
    unpack v = some (unpack64le v) := by
  have hne : v.isEmpty = false := by
    cases v with
    | nil => simp at hv
    | cons b bs => rfl
  simp [unpack, hv, hne]

theorem unpack_encode (x : Int) (hx : is_int64 x) : unpack (encode x) = some x := by
  rw [unpack_of_length_eight _ (encode_length x), unpack64le_encode x hx]

theorem unpack_is_int64 (v : slice) (t : Int) (h : unpack v = some t) : is_int64 t := by
  unfold unpack at h
  split at h
  · split at h
    · cases h
      unfold is_int64
      omega
    · cases h
      exact to_int64_range _
  · cases h

theorem validate_iff (v : slice) :
    datatype_timestamp.validate v = true ↔ v.length = 8 ∨ v.length = 0 := by
  cases v <;> simp [datatype_timestamp.validate]

theorem unpack_of_validate (v : slice) (hv : datatype_timestamp.validate v = true) :
    ∃ t, unpack v = some t ∧ is_int64 t := by
  rcases (validate_iff v).1 hv with h | h
  · exact ⟨_, unpack_of_length_eight v h, to_int64_range _⟩
  · rw [List.length_eq_zero] at h
    subst h
    exact ⟨0, rfl, by unfold is_int64; omega⟩

theorem read_length (mem : Mem) (p n : Nat) : (read mem p n).length = n := by
  simp [read]

theorem read_store_same (mem : Mem) (p : Nat) (bs : List Byte) :
    read (store mem p bs) p bs.length = bs := by
  apply List.ext_getElem
  · simp [read]
  · intro i h1 h2
    simp [read, store, h2]

theorem store_outside (mem : Mem) (p : Nat) (bs : List Byte) (a : Nat)
    (h : a < p ∨ p + bs.length ≤ a) : store mem p bs a = mem a := by
  unfold store
  split
  · rfl
  · have : bs.length ≤ a - p := by omega
    simp [List.getElem?_eq_none this]

/-! ## Facts about truncating division and the interval table -/

theorem tdiv_tmod_nonneg (t I : Int) (ht : 0 ≤ t) (hI : 0 < I) :
    t = t.tdiv I * I + t.tmod I ∧ 0 ≤ t.tmod I ∧ t.tmod I < I ∧
      0 ≤ t.tdiv I ∧ t.tdiv I ≤ t := by
  have hd : t.tdiv I = t / I := Int.tdiv_eq_ediv ht (le_of_lt hI)
  refine ⟨(Int.tdiv_add_tmod' t I).symm, Int.tmod_nonneg I ht, Int.tmod_lt_of_pos t hI, ?_, ?_⟩
  · rw [hd]
    exact Int.ediv_nonneg ht (le_of_lt hI)
  · rw [hd]
    exact Int.ediv_le_self I ht

theorem tdiv_tmod_nonpos (t I : Int) (ht : t ≤ 0) (hI : 0 < I) :
    t = t.tdiv I * I + t.tmod I ∧ -I < t.tmod I ∧ t.tmod I ≤ 0 ∧
      t.tdiv I ≤ 0 ∧ t ≤ t.tdiv I := by
  obtain ⟨h1, h2, h3, h4, h5⟩ := tdiv_tmod_nonneg (-t) I (by omega) hI
  have hq : (-t).tdiv I = -(t.tdiv I) := Int.neg_tdiv t I
  have hr : (-t).tmod I = -(t.tmod I) := by
    rw [Int.tmod_def, Int.tmod_def, hq]
    ring
  rw [hq] at h4 h5
  rw [hr] at h2 h3
  exact ⟨(Int.tdiv_add_tmod' t I).symm, by omega, by omega, by omega, by omega⟩

theorem tdiv_is_int64 (t I : Int) (ht : is_int64 t) (hI : 0 < I) : is_int64 (t.tdiv I) := by
  unfold is_int64 at *
  rcases le_total 0 t with h | h
  · obtain ⟨_, _, _, h4, h5⟩ := tdiv_tmod_nonneg t I h hI
    omega
  · obtain ⟨_, _, _, h4, h5⟩ := tdiv_tmod_nonpos t I h hI
    omega

theorem tmod_sign (t I : Int) (hI : 0 < I) :
    t.tmod I = 0 ∨ Int.sign (t.tmod I) = Int.sign t := by
  rcases lt_trichotomy t 0 with h | h | h
  · obtain ⟨_, _, h3, _, _⟩ := tdiv_tmod_nonpos t I (le_of_lt h) hI
    rcases eq_or_lt_of_le h3 with h0 | hneg
    · exact Or.inl h0
    · exact Or.inr (by rw [Int.sign_eq_neg_one_of_neg hneg, Int.sign_eq_neg_one_of_neg h])
  · subst h
    exact Or.inl (by simp)
  · obtain ⟨_, h2, _, _, _⟩ := tdiv_tmod_nonneg t I (le_of_lt h) hI
    rcases eq_or_lt_of_le h2 with h0 | hpos
    · exact Or.inl h0.symm
    · exact Or.inr (by rw [Int.sign_eq_one_of_pos hpos, Int.sign_eq_one_of_pos h])

theorem tmod_abs_lt (t I : Int) (hI : 0 < I) : |t.tmod I| < I := by
  rw [abs_lt]
  rcases le_total 0 t with h | h
  · obtain ⟨_, h2, h3, _, _⟩ := tdiv_tmod_nonneg t I h hI
    exact ⟨by omega, h3⟩
  · obtain ⟨_, h2, h3, _, _⟩ := tdiv_tmod_nonpos t I h hI
    exact ⟨h2, by omega⟩

theorem selector_interval (s : Nat) (h1 : 1 ≤ s) (h6 : s ≤ 6) :
    ∃ I : Int, array_get lookup_interesting ((s : Int) - 1) = some I ∧
      lookup_interesting[s - 1]? = some I ∧ 0 < I := by
  interval_cases s
  · exact ⟨1, by decide, by decide, by decide⟩
  · exact ⟨60, by decide, by decide, by decide⟩
  · exact ⟨3600, by decide, by decide, by decide⟩
  · exact ⟨86400, by decide, by decide, by decide⟩
  · exact ⟨604800, by decide, by decide, by decide⟩
  · exact ⟨18144000, by decide, by decide, by decide⟩

theorem hash_eq (CityHash64 : List Byte → Nat) (self : datatype_timestamp) (v : slice)
    (t I : Int) (ht : unpack v = some t)
    (hI : array_get lookup_interesting (((self.m_type &&& 7 : Nat) : Int) - 1) = some I)
    (hpos : 0 < I) :
    self.hash CityHash64 v
      = some ((CityHash64 (encode (t.tdiv I)) % 2 ^ 64 + to_uint64 (t.tmod I)) % 2 ^ 64) := by
  have hc : ¬ (I = 0 ∨ (t = -(2 ^ 63) ∧ I = -1)) := by omega
  have hm : smod64 t I = some (t.tmod I) := by
    unfold smod64
    rw [if_neg hc]
  have hd : sdiv64 t I = some (t.tdiv I) := by
    unfold sdiv64
    rw [if_neg hc]
  simp [datatype_timestamp.hash, ht, hI, hm, hd]

theorem hash_word_cast (d : Nat) (r : Int) :
    (((d % 2 ^ 64 + to_uint64 r) % 2 ^ 64 : Nat) : Int) = ((d : Int) + r) % 2 ^ 64 := by
  unfold to_uint64
  push_cast
  omega

/-! ## Facts about `apply` -/

theorem apply_loop_append (FUNC_SET : Nat) (fs : List funcall) (f : funcall) (x t : Int)
    (hfs : ∀ g ∈ fs, g.name = FUNC_SET ∧ datatype_timestamp.validate g.arg1 = true)
    (hn : f.name = FUNC_SET) (ht : unpack f.arg1 = some t) :
    datatype_timestamp.apply_loop FUNC_SET (fs ++ [f]) x = some t := by
  induction fs generalizing x with
  | nil => simp [datatype_timestamp.apply_loop, hn, ht]
  | cons g gs ih =>
    obtain ⟨hg, hv⟩ := hfs g (List.mem_cons_self g gs)
    obtain ⟨u, hu, _⟩ := unpack_of_validate g.arg1 hv
    have ih2 := ih u (fun k hk => hfs k (List.mem_cons_of_mem g hk))
    simp [datatype_timestamp.apply_loop, hg, hu, ih2]

theorem apply_append (FUNC_SET : Nat) (old : slice) (fs : List funcall) (f : funcall)
    (t : Int) (mem : Mem) (writeto : Nat)
    (hold : datatype_timestamp.validate old = true)
    (hfs : ∀ g ∈ fs, g.name = FUNC_SET ∧ datatype_timestamp.validate g.arg1 = true)
    (hn : f.name = FUNC_SET) (ht : unpack f.arg1 = some t) :
    datatype_timestamp.apply FUNC_SET old (fs ++ [f]) mem writeto
      = some (store mem writeto (encode t), writeto + 8) := by
  obtain ⟨u, hu, _⟩ := unpack_of_validate old hold
  simp [datatype_timestamp.apply, hu, apply_loop_append FUNC_SET fs f u t hfs hn ht, pack64le]

theorem apply_nil (FUNC_SET : Nat) (old : slice) (t : Int) (mem : Mem) (writeto : Nat)
    (ht : unpack old = some t) :
    datatype_timestamp.apply FUNC_SET old [] mem writeto
      = some (store mem writeto (encode t), writeto + 8) := by
  simp [datatype_timestamp.apply, ht, datatype_timestamp.apply_loop, pack64le]

/-! ## Facts about `compare` and `step` -/

theorem compare_eq (a b : slice) (x y : Int) (ha : unpack a = some x) (hb : unpack b = some y) :
    compare a b = some (if x < y then -1 else if x > y then 1 else 0) := by
  unfold compare
  rw [ha, hb]
  simp only [Option.bind_eq_bind, Option.some_bind]
  split
  · rfl
  · split <;> rfl

theorem compare_less_eq (a b : slice) :
    compare_less a b = (compare a b).map (fun c => decide (c < 0)) := by
  unfold compare_less
  cases compare a b <;> rfl

theorem step_short (mem : Mem) (ptr end_ : Nat) (elem : slice)
    (h1 : ptr ≤ end_) (h3 : end_ - ptr < 8) :
    datatype_timestamp.step mem ptr end_ elem = (false, ptr, elem) := by
  unfold datatype_timestamp.step
  rw [if_pos (by omega)]

theorem step_long (mem : Mem) (ptr end_ : Nat) (elem : slice)
    (h1 : ptr ≤ end_) (h2 : end_ - ptr < 2 ^ 64) (h3 : 8 ≤ end_ - ptr) :
    datatype_timestamp.step mem ptr end_ elem = (true, ptr + 8, read mem ptr 8) := by
  unfold datatype_timestamp.step
  rw [if_neg (by omega)]

/-! ## Further facts used by the later claims -/

theorem selector_interval_bounded (s : Nat) (h1 : 1 ≤ s) (h6 : s ≤ 6) :
    ∃ I : Int, array_get lookup_interesting ((s : Int) - 1) = some I ∧
      lookup_interesting[s - 1]? = some I ∧ 0 < I ∧ I ≤ 18144000 := by
  interval_cases s
  · exact ⟨1, by decide, by decide, by decide, by decide⟩
  · exact ⟨60, by decide, by decide, by decide, by decide⟩
  · exact ⟨3600, by decide, by decide, by decide, by decide⟩
  · exact ⟨86400, by decide, by decide, by decide, by decide⟩
  · exact ⟨604800, by decide, by decide, by decide, by decide⟩
  · exact ⟨18144000, by decide, by decide, by decide, by decide⟩

theorem selector_interval_of_lookup (self : datatype_timestamp) (I : Int)
    (hs : 1 ≤ self.m_type &&& 7 ∧ self.m_type &&& 7 ≤ 6)
    (hI : lookup_interesting[(self.m_type &&& 7) - 1]? = some I) :
    array_get lookup_interesting (((self.m_type &&& 7 : Nat) : Int) - 1) = some I ∧
      0 < I ∧ I ≤ 18144000 := by
  obtain ⟨J, hJ, hJ2, hpos, hle⟩ := selector_interval_bounded (self.m_type &&& 7) hs.1 hs.2
  have hIJ : I = J := by
    rw [hI] at hJ2
    exact Option.some.inj hJ2
  subst hIJ
  exact ⟨hJ, hpos, hle⟩

theorem tmod_bounds (t I : Int) (hI : 0 < I) :
    -I < t.tmod I ∧ t.tmod I < I ∧ (0 ≤ t → 0 ≤ t.tmod I) ∧ (t ≤ 0 → t.tmod I ≤ 0) := by
  have h := abs_lt.1 (tmod_abs_lt t I hI)
  refine ⟨h.1, h.2, fun ht => (tdiv_tmod_nonneg t I ht hI).2.1,
    fun ht => (tdiv_tmod_nonpos t I ht hI).2.2.1⟩

theorem check_args_sound (FUNC_SET : Nat) (self : datatype_timestamp) (f : funcall)
    (h : datatype_timestamp.check_args FUNC_SET self f = true) :
    f.name = FUNC_SET ∧ datatype_timestamp.validate f.arg1 = true := by
  simp only [datatype_timestamp.check_args, Bool.and_eq_true, beq_iff_eq] at h
  exact ⟨h.1.1, h.2⟩

theorem apply_loop_valid (FUNC_SET : Nat) (fs : List funcall) (x : Int) (hx : is_int64 x)
    (hfs : ∀ g ∈ fs, g.name = FUNC_SET ∧ datatype_timestamp.validate g.arg1 = true) :
    ∃ t : Int, datatype_timestamp.apply_loop FUNC_SET fs x = some t ∧ is_int64 t ∧
      (fs = [] → t = x) ∧ (∀ f, fs.getLast? = some f → unpack f.arg1 = some t) := by
  induction fs generalizing x with
  | nil =>
    exact ⟨x, rfl, hx, fun _ => rfl, fun f hf => by simp at hf⟩
  | cons g gs ih =>
    obtain ⟨hg, hv⟩ := hfs g (List.mem_cons_self g gs)
    obtain ⟨u, hu, hu2⟩ := unpack_of_validate g.arg1 hv
    obtain ⟨t, h1, h2, h3, h4⟩ := ih u hu2 (fun k hk => hfs k (List.mem_cons_of_mem g hk))
    refine ⟨t, by simp [datatype_timestamp.apply_loop, hg, hu, h1], h2,
      fun h => by simp at h, ?_⟩
    intro f hf
    cases gs with
    | nil =>
      simp only [List.getLast?_singleton, Option.some.injEq] at hf
      subst hf
      rw [h3 rfl]
      exact hu
    | cons k ks =>
      rw [List.getLast?_cons_cons] at hf
      exact h4 f hf

theorem apply_valid (FUNC_SET : Nat) (old : slice) (fs : List funcall)
    (mem : Mem) (writeto : Nat)
    (hold : datatype_timestamp.validate old = true)
    (hfs : ∀ g ∈ fs, g.name = FUNC_SET ∧ datatype_timestamp.validate g.arg1 = true) :
    ∃ t : Int, is_int64 t ∧
      datatype_timestamp.apply FUNC_SET old fs mem writeto
        = some (store mem writeto (encode t), writeto + 8) ∧
      (fs = [] → unpack old = some t) ∧
      (∀ f, fs.getLast? = some f → unpack f.arg1 = some t) := by
  obtain ⟨u, hu, hu2⟩ := unpack_of_validate old hold
  obtain ⟨t, h1, h2, h3, h4⟩ := apply_loop_valid FUNC_SET fs u hu2 hfs
  refine ⟨t, h2, by simp [datatype_timestamp.apply, hu, h1, pack64le], ?_, h4⟩
  intro h
  rw [h3 h]
  exact hu

theorem read_store_encode (mem : Mem) (writeto : Nat) (t : Int) :
    read (store mem writeto (encode t)) writeto 8 = encode t := by
  have := read_store_same mem writeto (encode t)
  rwa [encode_length] at this

theorem encode_of_unpack (v : slice) (t : Int) (hv : v.length = 8) (h : unpack v = some t) :
    encode t = v := by
  rw [unpack_of_length_eight v hv] at h
  rw [← Option.some.inj h]
  exact encode_unpack64le v hv

theorem step_all_eq (mem : Mem) (end_ : Nat) (hend : end_ < 2 ^ 64) :
    ∀ (m fuel ptr : Nat) (elem : slice), ptr ≤ end_ → (end_ - ptr) / 8 = m → m < fuel →
      step_all mem end_ fuel ptr elem
        = some ((List.range m).map (fun k => read mem (ptr + 8 * k) 8), ptr + 8 * m) := by
  intro m
  induction m with
  | zero =>
    intro fuel ptr elem hle hm hf
    obtain ⟨f, rfl⟩ : ∃ f, fuel = f + 1 := ⟨fuel - 1, by omega⟩
    have hs := step_short mem ptr end_ elem hle (by omega)
    simp [step_all, hs]
  | succ m ih =>
    intro fuel ptr elem hle hm hf
    obtain ⟨f, rfl⟩ : ∃ f, fuel = f + 1 := ⟨fuel - 1, by omega⟩
    have hs := step_long mem ptr end_ elem hle (by omega) (by omega)
    have ih2 := ih f (ptr + 8) (read mem ptr 8) (by omega) (by omega) (by omega)
    simp only [step_all, hs, ih2, Option.map_some']
    refine congrArg some (Prod.ext ?_ (by simp only []; omega))
    simp only [List.range_succ_eq_map, List.map_cons, List.map_map, Nat.mul_zero, Nat.add_zero]
    refine congrArg (List.cons _) (List.map_congr_left ?_)
    intro k _
    simp only [Function.comp_apply, Nat.succ_eq_add_one]
    congr 1
    omega

theorem read_drop_take (mem : Mem) (p n a b : Nat) (h : a + b ≤ n) :
    ((read mem p n).drop a).take b = read mem (p + a) b := by
  apply List.ext_getElem
  · simp [read]
    omega
  · intro i h1 h2
    simp [read, Nat.add_assoc]

/-! ## The specification's claims -/

/-- C1: for a valid encoded value `v` and an instance whose bucket selector
`m_type & 7` lies in `[1,6]`, `hash v` is `CityHash64 (le64 bucket) + remainder`
modulo `2^64`, where `t` is the decoded integer (`0` for the empty value), `I`
is entry `selector - 1` of the interval table and `bucket`, `remainder` are
quotient and remainder of the division of `t` by `I` truncated toward zero:
`t = bucket * I + remainder`, `|remainder| < I` and `remainder` is zero or has
the sign of `t`. With the hour selector `3661` has bucket `1` and remainder
`61`; with the second selector `-5` has bucket `-5` and remainder `0`. -/
theorem C1_hash_is_bucket_digest_plus_remainder (CityHash64 : List Byte → Nat)
    (self : datatype_timestamp) (v : slice)
    (hv : datatype_timestamp.validate v = true)
    (hs : 1 ≤ self.m_type &&& 7 ∧ self.m_type &&& 7 ≤ 6) :
    (∃ t I bucket remainder : Int, ∃ h : Nat,
      unpack v = some t ∧ (v = [] → t = 0) ∧
      lookup_interesting[(self.m_type &&& 7) - 1]? = some I ∧ 0 < I ∧
      bucket = Int.tdiv t I ∧ remainder = Int.tmod t I ∧
      t = bucket * I + remainder ∧ |remainder| < I ∧
      (remainder = 0 ∨ Int.sign remainder = Int.sign t) ∧
      self.hash CityHash64 v = some h ∧ h < 2 ^ 64 ∧
      (h : Int) = ((CityHash64 (encode bucket) : Int) + remainder) % 2 ^ 64) ∧
    (∀ hour : datatype_timestamp, hour.m_type &&& 7 = 3 →
      lookup_interesting[2]? = some 3600 ∧
      Int.tdiv 3661 3600 = 1 ∧ Int.tmod 3661 3600 = 61 ∧
      hour.hash CityHash64 (encode 3661) = some ((CityHash64 (encode 1) + 61) % 2 ^ 64)) ∧
    (∀ second : datatype_timestamp, second.m_type &&& 7 = 1 →
      lookup_interesting[0]? = some 1 ∧
      Int.tdiv (-5) 1 = -5 ∧ Int.tmod (-5) 1 = 0 ∧
      second.hash CityHash64 (encode (-5)) = some ((CityHash64 (encode (-5)) + 0) % 2 ^ 64)) := by
  refine ⟨?_, ?_, ?_⟩
  · obtain ⟨t, ht, _⟩ := unpack_of_validate v hv
    obtain ⟨I, hI, hI2, hpos⟩ := selector_interval (self.m_type &&& 7) hs.1 hs.2
    refine ⟨t, I, t.tdiv I, t.tmod I, _, ht, ?_, hI2, hpos, rfl, rfl,
      (Int.tdiv_add_tmod' t I).symm, tmod_abs_lt t I hpos, tmod_sign t I hpos,
      hash_eq CityHash64 self v t I ht hI hpos, Nat.mod_lt _ (by norm_num),
      hash_word_cast _ _⟩
    intro hnil
    subst hnil
    exact (Option.some.inj ht).symm
  · intro hour hh
    have hI : array_get lookup_interesting (((hour.m_type &&& 7 : Nat) : Int) - 1) = some 3600 := by
      rw [hh]
      decide
    refine ⟨by decide, by decide, by decide, ?_⟩
    rw [hash_eq CityHash64 hour (encode 3661) 3661 3600 (by decide) hI (by decide)]
    have h1 : Int.tdiv 3661 3600 = 1 := by decide
    have h2 : to_uint64 (Int.tmod 3661 3600) = 61 := by decide
    rw [h1, h2]
    refine congrArg some ?_
    omega
  · intro second hh
    have hI : array_get lookup_interesting (((second.m_type &&& 7 : Nat) : Int) - 1) = some 1 := by
      rw [hh]
      decide
    refine ⟨by decide, by decide, by decide, ?_⟩
    rw [hash_eq CityHash64 second (encode (-5)) (-5) 1 (by decide) hI (by decide)]
    have h1 : Int.tdiv (-5) 1 = -5 := by decide
    have h2 : to_uint64 (Int.tmod (-5) 1) = 0 := by decide
    rw [h1, h2]
    refine congrArg some ?_
    omega

/-- C1 at the day-granularity tag `4`, the value `-90000` and a constant digest. -/
theorem C1_hash_is_bucket_digest_plus_remainder_witness :
    datatype_timestamp.validate (encode (-90000)) = true ∧
    (1 ≤ (4 : Nat) &&& 7 ∧ (4 : Nat) &&& 7 ≤ 6) ∧
    ∃ h : Nat, datatype_timestamp.hash (fun _ => 5000) ⟨4⟩ (encode (-90000)) = some h ∧
      (h : Int) = (5000 + -3600) % 2 ^ 64 :=
  ⟨by decide, by decide, by
    obtain ⟨⟨t, I, b, r, h, ht, _, hI, _, hb, hr, _, _, _, hh, _, hc⟩, _⟩ :=
      C1_hash_is_bucket_digest_plus_remainder (fun _ => 5000) ⟨4⟩ (encode (-90000))
        (by decide) (by decide)
    have ht2 : t = -90000 := by
      have : unpack (encode (-90000)) = some (-90000) := by decide
      rw [this] at ht
      exact (Option.some.inj ht).symm
    have hI2 : I = 86400 := by
      have : lookup_interesting[((4 : Nat) &&& 7) - 1]? = some 86400 := by decide
      change lookup_interesting[((4 : Nat) &&& 7) - 1]? = some I at hI
      rw [this] at hI
      exact (Option.some.inj hI).symm
    subst ht2 hI2
    have hr2 : r = -3600 := by rw [hr]; decide
    subst hr2
    exact ⟨h, hh, by simpa using hc⟩⟩

/-- C2: for a fixed bucket selector with interval `I` and signed 64-bit `t1`,
`t2` in the same bucket (`t1 / I = t2 / I`, truncating), the two hashes differ
by `t1 - t2` modulo `2^64`, for every digest function. -/
theorem C2_hash_difference_within_bucket (CityHash64 : List Byte → Nat)
    (self : datatype_timestamp) (I t1 t2 : Int)
    (hs : 1 ≤ self.m_type &&& 7 ∧ self.m_type &&& 7 ≤ 6)
    (hI : lookup_interesting[(self.m_type &&& 7) - 1]? = some I)
    (h1 : is_int64 t1) (h2 : is_int64 t2)
    (hb : Int.tdiv t1 I = Int.tdiv t2 I) :
    ∃ a b : Nat, self.hash CityHash64 (encode t1) = some a ∧
      self.hash CityHash64 (encode t2) = some b ∧
      ((a : Int) - (b : Int)) % 2 ^ 64 = (t1 - t2) % 2 ^ 64 := by
  obtain ⟨J, hJ, hJ2, hpos⟩ := selector_interval (self.m_type &&& 7) hs.1 hs.2
  have hIJ : I = J := by
    rw [hI] at hJ2
    exact Option.some.inj hJ2
  subst hIJ
  refine ⟨_, _, hash_eq CityHash64 self _ t1 I (unpack_encode t1 h1) hJ hpos,
    hash_eq CityHash64 self _ t2 I (unpack_encode t2 h2) hJ hpos, ?_⟩
  rw [hash_word_cast, hash_word_cast, hb]
  have e1 : t1 = t2.tdiv I * I + t1.tmod I := by
    rw [← hb]
    exact (Int.tdiv_add_tmod' t1 I).symm
  have e2 : t2 = t2.tdiv I * I + t2.tmod I := (Int.tdiv_add_tmod' t2 I).symm
  generalize t2.tdiv I * I = q at e1 e2
  generalize (CityHash64 (encode (t2.tdiv I)) : Int) = d
  omega

/-- C2 at the minute selector: `-5` and `5` both lie in bucket `0`. -/
theorem C2_hash_difference_within_bucket_witness :
    (1 ≤ (2 : Nat) &&& 7 ∧ (2 : Nat) &&& 7 ≤ 6) ∧
    lookup_interesting[((2 : Nat) &&& 7) - 1]? = some 60 ∧
    is_int64 (-5) ∧ is_int64 5 ∧ Int.tdiv (-5) 60 = Int.tdiv 5 60 ∧
    ∃ a b : Nat, datatype_timestamp.hash (fun _ => 3) ⟨2⟩ (encode (-5)) = some a ∧
      datatype_timestamp.hash (fun _ => 3) ⟨2⟩ (encode 5) = some b ∧
      ((a : Int) - (b : Int)) % 2 ^ 64 = (-5 - 5) % 2 ^ 64 :=
  ⟨by decide, by decide, by decide, by decide, by decide,
    C2_hash_difference_within_bucket (fun _ => 3) ⟨2⟩ 60 (-5) 5
      (by decide) (by decide) (by decide) (by decide) (by decide)⟩

/-- C3: `apply` is last-write-wins. For valid `old`, `a`, `b` the call with
`[SET a, SET b]` succeeds and leaves the same memory and cursor as the call with
`[SET b]`; and for any two valid old values and any two sequences of valid `SET`
requests that end in requests with the same argument, both calls succeed with
the same result, which is the encoding of that last argument's integer written
at `writeto`. -/
theorem C3_apply_last_write_wins (FUNC_SET : Nat) (mem : Mem) (writeto : Nat)
    (old a b : slice) (ta tb : hyperdatatype)
    (hold : datatype_timestamp.validate old = true)
    (ha : datatype_timestamp.validate a = true)
    (hb : datatype_timestamp.validate b = true) :
    (datatype_timestamp.apply FUNC_SET old [⟨FUNC_SET, a, ta⟩, ⟨FUNC_SET, b, tb⟩] mem writeto
        = datatype_timestamp.apply FUNC_SET old [⟨FUNC_SET, b, tb⟩] mem writeto ∧
      (datatype_timestamp.apply FUNC_SET old [⟨FUNC_SET, b, tb⟩] mem writeto).isSome = true) ∧
    (∀ (old1 old2 : slice) (fs1 fs2 : List funcall) (f1 f2 : funcall),
      datatype_timestamp.validate old1 = true → datatype_timestamp.validate old2 = true →
      (∀ g ∈ fs1 ++ [f1], g.name = FUNC_SET ∧ datatype_timestamp.validate g.arg1 = true) →
      (∀ g ∈ fs2 ++ [f2], g.name = FUNC_SET ∧ datatype_timestamp.validate g.arg1 = true) →
      f1.arg1 = f2.arg1 →
      ∃ t : Int, unpack f1.arg1 = some t ∧
        datatype_timestamp.apply FUNC_SET old1 (fs1 ++ [f1]) mem writeto
          = some (store mem writeto (encode t), writeto + 8) ∧
        datatype_timestamp.apply FUNC_SET old2 (fs2 ++ [f2]) mem writeto
          = some (store mem writeto (encode t), writeto + 8)) := by
  have key : ∀ (old1 : slice) (fs1 : List funcall) (f1 : funcall) (t : Int),
      datatype_timestamp.validate old1 = true →
      (∀ g ∈ fs1 ++ [f1], g.name = FUNC_SET ∧ datatype_timestamp.validate g.arg1 = true) →
      unpack f1.arg1 = some t →
      datatype_timestamp.apply FUNC_SET old1 (fs1 ++ [f1]) mem writeto
        = some (store mem writeto (encode t), writeto + 8) := by
    intro old1 fs1 f1 t h1 hall ht
    exact apply_append FUNC_SET old1 fs1 f1 t mem writeto h1
      (fun g hg => hall g (List.mem_append_left _ hg))
      (hall f1 (List.mem_append_right _ (List.mem_singleton_self f1))).1 ht
  refine ⟨?_, ?_⟩
  · obtain ⟨t, ht, _⟩ := unpack_of_validate b hb
    have e2 := key old [⟨FUNC_SET, a, ta⟩] ⟨FUNC_SET, b, tb⟩ t hold
      (by
        intro g hg
        simp only [List.singleton_append, List.mem_cons, List.mem_singleton, List.not_mem_nil,
          or_false] at hg
        rcases hg with rfl | rfl
        · exact ⟨rfl, ha⟩
        · exact ⟨rfl, hb⟩) ht
    have e1 := key old [] ⟨FUNC_SET, b, tb⟩ t hold
      (by
        intro g hg
        simp only [List.nil_append, List.mem_singleton] at hg
        subst hg
        exact ⟨rfl, hb⟩) ht
    simp only [List.singleton_append, List.nil_append] at e1 e2
    rw [e1, e2]
    exact ⟨rfl, rfl⟩
  · intro old1 old2 fs1 fs2 f1 f2 h1 h2 hall1 hall2 heq
    obtain ⟨t, ht, _⟩ := unpack_of_validate f1.arg1
      (hall1 f1 (List.mem_append_right _ (List.mem_singleton_self f1))).2
    exact ⟨t, ht, key old1 fs1 f1 t h1 hall1 ht, key old2 fs2 f2 t h2 hall2 (heq ▸ ht)⟩

/-- C3 at `old = encode 9`, `a = encode 4`, `b = encode (-2)`. -/
theorem C3_apply_last_write_wins_witness :
    datatype_timestamp.validate (encode 9) = true ∧
    datatype_timestamp.validate (encode 4) = true ∧
    datatype_timestamp.validate (encode (-2)) = true ∧
    datatype_timestamp.apply 1 (encode 9) [⟨1, encode 4, 3⟩, ⟨1, encode (-2), 3⟩] (fun _ => 0) 0
      = datatype_timestamp.apply 1 (encode 9) [⟨1, encode (-2), 3⟩] (fun _ => 0) 0 ∧
    (datatype_timestamp.apply 1 (encode 9) [⟨1, encode (-2), 3⟩] (fun _ => 0) 0).isSome = true :=
  ⟨by decide, by decide, by decide,
    (C3_apply_last_write_wins 1 (fun _ => 0) 0 (encode 9) (encode 4) (encode (-2)) 3 3
      (by decide) (by decide) (by decide)).1⟩

/-- C4: with no requests `apply` writes the 8-byte encoding of the old value's
integer: `apply (encode t) []` writes `encode t` at `writeto`, and
`apply [] []` writes the eight bytes of `encode 0`, not an empty value; both
return `writeto + 8`. -/
theorem C4_apply_no_requests (FUNC_SET : Nat) (mem : Mem) (writeto : Nat) (t : Int)
    (ht : is_int64 t) :
    (∃ mem1 : Mem, datatype_timestamp.apply FUNC_SET (encode t) [] mem writeto
        = some (mem1, writeto + 8) ∧ read mem1 writeto 8 = encode t) ∧
    (∃ mem0 : Mem, datatype_timestamp.apply FUNC_SET [] [] mem writeto
        = some (mem0, writeto + 8) ∧ read mem0 writeto 8 = encode 0 ∧
        encode 0 = [0, 0, 0, 0, 0, 0, 0, 0] ∧ read mem0 writeto 8 ≠ []) := by
  refine ⟨⟨_, apply_nil FUNC_SET (encode t) t mem writeto (unpack_encode t ht), ?_⟩,
    ⟨_, apply_nil FUNC_SET [] 0 mem writeto unpack_nil, ?_, by decide, ?_⟩⟩
  · have := read_store_same mem writeto (encode t)
    rwa [encode_length] at this
  · have := read_store_same mem writeto (encode 0)
    rwa [encode_length] at this
  · intro h
    have := congrArg List.length h
    rw [read_length] at this
    simp at this

/-- C4 at `t = -1`, writing at address `4`. -/
theorem C4_apply_no_requests_witness :
    is_int64 (-1) ∧
    (∃ mem1 : Mem, datatype_timestamp.apply 1 (encode (-1)) [] (fun _ => 0) 4
        = some (mem1, 4 + 8) ∧ read mem1 4 8 = encode (-1)) :=
  ⟨by decide, (C4_apply_no_requests 1 (fun _ => 0) 4 (-1) (by decide)).1⟩

/-- C5: for signed 64-bit `x` and `y`, `compare (encode x) (encode y)` is the
sign of the exact difference `x - y` (`-1` if `x < y`, `0` if `x = y`, `1` if
`x > y`); and for all slices the predicate returned by `compare_less` is true
exactly when `compare` returns a negative number (and is undefined exactly when
`compare` is). -/
theorem C5_compare_is_sign_of_difference (x y : Int) (hx : is_int64 x) (hy : is_int64 y) :
    datatype_timestamp.compare (encode x) (encode y) = some (Int.sign (x - y)) ∧
    (x < y → datatype_timestamp.compare (encode x) (encode y) = some (-1)) ∧
    (x = y → datatype_timestamp.compare (encode x) (encode y) = some 0) ∧
    (x > y → datatype_timestamp.compare (encode x) (encode y) = some 1) ∧
    (∀ a b : slice,
      (datatype_timestamp.compare_less a b = some true ↔
        ∃ c : Int, datatype_timestamp.compare a b = some c ∧ c < 0) ∧
      (datatype_timestamp.compare_less a b = some false ↔
        ∃ c : Int, datatype_timestamp.compare a b = some c ∧ ¬ c < 0) ∧
      (datatype_timestamp.compare_less a b = none ↔
        datatype_timestamp.compare a b = none)) := by
  have hc := compare_eq (encode x) (encode y) x y (unpack_encode x hx) (unpack_encode y hy)
  unfold datatype_timestamp.compare datatype_timestamp.compare_less
  refine ⟨?_, ?_, ?_, ?_, ?_⟩
  · rw [hc]
    rcases lt_trichotomy x y with h | h | h
    · rw [if_pos h, Int.sign_eq_neg_one_of_neg (by omega)]
    · subst h
      simp
    · rw [if_neg (by omega), if_pos h, Int.sign_eq_one_of_pos (by omega)]
  · intro h
    rw [hc, if_pos h]
  · intro h
    rw [hc, if_neg (by omega), if_neg (by omega)]
  · intro h
    rw [hc, if_neg (by omega), if_pos h]
  · intro a b
    rw [compare_less_eq]
    cases compare a b <;> simp

/-- C5 at `x = -3`, `y = 2^62`. -/
theorem C5_compare_is_sign_of_difference_witness :
    is_int64 (-3) ∧ is_int64 (2 ^ 62) ∧
    datatype_timestamp.compare (encode (-3)) (encode (2 ^ 62)) = some (Int.sign (-3 - 2 ^ 62)) :=
  ⟨by decide, by decide,
    (C5_compare_is_sign_of_difference (-3) (2 ^ 62) (by decide) (by decide)).1⟩

/-- C6, as the claim states it, fails: the empty value and the 8-byte encoding
of `0` are both valid, differ as byte strings, and compare as equal. -/
theorem C6_compare_zero_for_unequal_values :
    datatype_timestamp.validate [] = true ∧
    datatype_timestamp.validate (encode 0) = true ∧
    ([] : slice) ≠ encode 0 ∧
    datatype_timestamp.compare [] (encode 0) = some 0 ∧
    datatype_timestamp.compare (encode 0) [] = some 0 := by
  decide

/-- C6, amended: on valid encoded values `compare` always returns one of `-1`,
`0`, `1`; `compare a b = -compare b a`; `compare a b = 0` exactly when `a` and
`b` decode to the same integer, which for two 8-byte values means `a = b`; it is
transitive; it is total (one of `compare a b < 0`, `compare a b = 0`,
`compare b a < 0` holds); and `compare a b < 0` exactly when the integer decoded
from `a` is below the one decoded from `b`, negative integers included. -/
theorem C6_compare_orders_decoded_values (a b c : slice)
    (ha : datatype_timestamp.validate a = true)
    (hb : datatype_timestamp.validate b = true)
    (hc : datatype_timestamp.validate c = true) :
    ∃ x y z ab ba : Int,
      unpack a = some x ∧ unpack b = some y ∧ unpack c = some z ∧
      is_int64 x ∧ is_int64 y ∧ is_int64 z ∧
      datatype_timestamp.compare a b = some ab ∧
      datatype_timestamp.compare b a = some ba ∧
      (ab = -1 ∨ ab = 0 ∨ ab = 1) ∧
      ab = -ba ∧
      (ab = 0 ↔ x = y) ∧
      (a.length = 8 → b.length = 8 → (ab = 0 ↔ a = b)) ∧
      (ab < 0 ↔ x < y) ∧
      (ab < 0 ∨ ab = 0 ∨ ba < 0) ∧
      (ab < 0 → ∀ bc : Int, datatype_timestamp.compare b c = some bc → bc < 0 →
        ∃ ac : Int, datatype_timestamp.compare a c = some ac ∧ ac < 0) := by
  obtain ⟨x, hx, hx2⟩ := unpack_of_validate a ha
  obtain ⟨y, hy, hy2⟩ := unpack_of_validate b hb
  obtain ⟨z, hz, hz2⟩ := unpack_of_validate c hc
  have hab := compare_eq a b x y hx hy
  have hba := compare_eq b a y x hy hx
  have hbc := compare_eq b c y z hy hz
  have hac := compare_eq a c x z hx hz
  unfold datatype_timestamp.compare
  refine ⟨x, y, z, _, _, hx, hy, hz, hx2, hy2, hz2, hab, hba, ?_, ?_, ?_, ?_, ?_, ?_, ?_⟩
  · split_ifs <;> simp
  · split_ifs <;> omega
  · split_ifs <;> constructor <;> intro h <;> first | omega | exact False.elim h
  · intro la lb
    have e1 : encode x = a := by
      rw [unpack_of_length_eight a la] at hx
      rw [← Option.some.inj hx]
      exact encode_unpack64le a la
    have e2 : encode y = b := by
      rw [unpack_of_length_eight b lb] at hy
      rw [← Option.some.inj hy]
      exact encode_unpack64le b lb
    have hxy : (if x < y then (-1 : Int) else if x > y then 1 else 0) = 0 ↔ x = y := by
      split_ifs <;> constructor <;> intro h <;> first | omega | exact False.elim h
    rw [hxy]
    constructor
    · intro h
      rw [← e1, ← e2, h]
    · intro h
      have h3 : unpack a = unpack b := by rw [h]
      rw [hx, hy] at h3
      exact Option.some.inj h3
  · split_ifs <;> omega
  · split_ifs <;> omega
  · intro h1 bc h2 hneg
    rw [hbc] at h2
    have h3 : x < y := by
      by_contra hn
      rw [if_neg hn] at h1
      split_ifs at h1 <;> omega
    have h4 : y < z := by
      by_contra hn
      rw [if_neg hn] at h2
      have h5 := Option.some.inj h2
      split_ifs at h5 <;> omega
    exact ⟨-1, by rw [hac, if_pos (by omega)], by omega⟩

/-- C6 (amended) at the empty value, `encode (-7)` and `encode 7`. -/
theorem C6_compare_orders_decoded_values_witness :
    datatype_timestamp.validate [] = true ∧
    datatype_timestamp.validate (encode (-7)) = true ∧
    datatype_timestamp.validate (encode 7) = true ∧
    ∃ x y z ab ba : Int,
      unpack (encode (-7)) = some x ∧ unpack [] = some y ∧ unpack (encode 7) = some z ∧
      is_int64 x ∧ is_int64 y ∧ is_int64 z ∧
      datatype_timestamp.compare (encode (-7)) [] = some ab ∧
      datatype_timestamp.compare [] (encode (-7)) = some ba ∧
      (ab = -1 ∨ ab = 0 ∨ ab = 1) ∧
      ab = -ba ∧
      (ab = 0 ↔ x = y) ∧
      ((encode (-7)).length = 8 → ([] : slice).length = 8 → (ab = 0 ↔ encode (-7) = [])) ∧
      (ab < 0 ↔ x < y) ∧
      (ab < 0 ∨ ab = 0 ∨ ba < 0) ∧
      (ab < 0 → ∀ bc : Int, datatype_timestamp.compare [] (encode 7) = some bc → bc < 0 →
        ∃ ac : Int, datatype_timestamp.compare (encode (-7)) (encode 7) = some ac ∧ ac < 0) :=
  ⟨by decide, by decide, by decide,
    C6_compare_orders_decoded_values (encode (-7)) [] (encode 7)
      (by decide) (by decide) (by decide)⟩

/-- C7: `validate` is a total boolean function, true exactly on the byte
strings of length 8 and of length 0. -/
theorem C7_validate_iff_length (v : slice) :
    (datatype_timestamp.validate v = true ↔ v.length = 8 ∨ v.length = 0) ∧
    (datatype_timestamp.validate v = false ↔ v.length ≠ 8 ∧ v.length ≠ 0) := by
  cases v <;> simp [datatype_timestamp.validate]

/-- C8: `check_args` accepts a request exactly when its name is `FUNC_SET`, its
declared argument type is the instance's own tag (the whole tag, bucket
selector included) and its argument has length 0 or 8. -/
theorem C8_check_args_iff (FUNC_SET : Nat) (self : datatype_timestamp) (f : funcall) :
    (datatype_timestamp.check_args FUNC_SET self f = true ↔
      f.name = FUNC_SET ∧ f.arg1_datatype = self.m_type ∧
        datatype_timestamp.validate f.arg1 = true) ∧
    (datatype_timestamp.validate f.arg1 = true ↔ f.arg1.length = 0 ∨ f.arg1.length = 8) ∧
    self.datatype = self.m_type := by
  refine ⟨?_, ?_, rfl⟩
  · simp [datatype_timestamp.check_args, datatype_timestamp.datatype, and_assoc]
  · rw [validate_iff]
    exact Or.comm

/-- C9: with `ptr ≤ end_` (both 64-bit addresses): when fewer than 8 bytes lie
between them `step` returns false and leaves `*ptr` and `*elem` as they were;
when at least 8 do, it returns true, `*elem` views the 8 bytes of memory at the
old `*ptr`, and `*ptr` has advanced by exactly 8. -/
theorem C9_step (mem : Mem) (ptr end_ : Nat) (elem : slice)
    (hle : ptr ≤ end_) (hend : end_ < 2 ^ 64) :
    (end_ - ptr < 8 → datatype_timestamp.step mem ptr end_ elem = (false, ptr, elem)) ∧
    (8 ≤ end_ - ptr →
      datatype_timestamp.step mem ptr end_ elem = (true, ptr + 8, read mem ptr 8) ∧
      read mem ptr 8 = [mem ptr, mem (ptr + 1), mem (ptr + 2), mem (ptr + 3),
        mem (ptr + 4), mem (ptr + 5), mem (ptr + 6), mem (ptr + 7)]) := by
  refine ⟨fun h => step_short mem ptr end_ elem hle h, fun h => ⟨?_, ?_⟩⟩
  · exact step_long mem ptr end_ elem hle (by omega) h
  · simp [read, List.range_succ]

/-- C9 on a 13-byte region at addresses `3 .. 16`: the first step yields bytes
`3 .. 10`, the second (5 bytes left) fails and changes nothing. -/
theorem C9_step_witness :
    (3 ≤ 16 ∧ 16 < 2 ^ 64) ∧
    datatype_timestamp.step (fun a => Fin.ofNat a) 3 16 []
      = (true, 11, [3, 4, 5, 6, 7, 8, 9, 10]) ∧
    (11 ≤ 16 ∧ 16 < 2 ^ 64) ∧
    datatype_timestamp.step (fun a => Fin.ofNat a) 11 16 [3, 4, 5, 6, 7, 8, 9, 10]
      = (false, 11, [3, 4, 5, 6, 7, 8, 9, 10]) :=
  ⟨by decide,
    ((C9_step (fun a => Fin.ofNat a) 3 16 [] (by decide) (by decide)).2 (by decide)).1,
    by decide,
    (C9_step (fun a => Fin.ofNat a) 11 16 [3, 4, 5, 6, 7, 8, 9, 10] (by decide) (by decide)).1
      (by decide)⟩

/-- C10, as the claim states it, fails: the empty value passes `validate`, but
`write` of it advances the cursor by 0 and `step` over the empty written region
returns false and yields nothing. -/
theorem C10_empty_element_does_not_round_trip :
    datatype_timestamp.validate [] = true ∧
    (datatype_timestamp.write (fun _ => 0) 16 []).2 = 16 ∧
    datatype_timestamp.step (datatype_timestamp.write (fun _ => 0) 16 []).1 16
      (datatype_timestamp.write (fun _ => 0) 16 []).2 [1, 2, 3]
      = (false, 16, [1, 2, 3]) := by
  decide

/-- C10, amended: for every element `e` of exactly 8 bytes, writing `e` at
`dest` and then calling `step` over exactly the written region
`[dest, write dest e)` returns true, yields an element whose bytes are `e`, and
leaves the cursor at the end of the region. -/
theorem C10_write_then_step_round_trip (mem : Mem) (dest : Nat) (e elem : slice)
    (he : e.length = 8) :
    datatype_timestamp.validate e = true ∧
    (datatype_timestamp.write mem dest e).2 = dest + 8 ∧
    datatype_timestamp.step (datatype_timestamp.write mem dest e).1 dest
      (datatype_timestamp.write mem dest e).2 elem = (true, dest + 8, e) := by
  refine ⟨(validate_iff e).2 (Or.inl he), ?_, ?_⟩
  · simp [datatype_timestamp.write, he]
  · have hr : read (store mem dest e) dest 8 = e := by
      have := read_store_same mem dest e
      rwa [he] at this
    simp only [datatype_timestamp.write, he]
    rw [step_long _ dest (dest + 8) elem (by omega) (by omega) (by omega), hr]

/-- C10 (amended) at `e = encode 3661`, written at address `5`. -/
theorem C10_write_then_step_round_trip_witness :
    (encode 3661).length = 8 ∧
    datatype_timestamp.step (datatype_timestamp.write (fun _ => 0) 5 (encode 3661)).1 5
      (datatype_timestamp.write (fun _ => 0) 5 (encode 3661)).2 [] = (true, 5 + 8, encode 3661) :=
  ⟨by decide,
    (C10_write_then_step_round_trip (fun _ => 0) 5 (encode 3661) [] (by decide)).2.2⟩

/-- C11: `write` copies the element's bytes verbatim to the destination
starting at `writeto`, returns `writeto` advanced by exactly the element's
length, and leaves every byte outside `[writeto, writeto + length)` as it was. -/
theorem C11_write_copies_and_frames (mem : Mem) (writeto : Nat) (e : slice) :
    read (datatype_timestamp.write mem writeto e).1 writeto e.length = e ∧
    (datatype_timestamp.write mem writeto e).2 = writeto + e.length ∧
    (∀ i (h : i < e.length),
      (datatype_timestamp.write mem writeto e).1 (writeto + i) = e.get ⟨i, h⟩) ∧
    (∀ a : Nat, a < writeto ∨ writeto + e.length ≤ a →
      (datatype_timestamp.write mem writeto e).1 a = mem a) := by
  refine ⟨read_store_same mem writeto e, rfl, ?_, ?_⟩
  · intro i h
    simp [datatype_timestamp.write, store, h]
  · intro a ha
    exact store_outside mem writeto e a ha

/-- C12, as the claim states it, fails: with the family of a tag being the tag
without its low 3 bits and the generic timestamp tag `9472` (its own family),
the constructor accepts the tags `9472` and `9479`, whose bucket selectors are
`0` and `7`; for both the table index of `hash` is outside the six-entry table. -/
theorem C12_constructor_accepts_selectors_zero_and_seven :
    datatype_timestamp.datatype_timestamp CONTAINER_TYPE 9472 9472 = some ⟨9472⟩ ∧
    (9472 : Nat) &&& 7 = 0 ∧
    datatype_timestamp.datatype_timestamp CONTAINER_TYPE 9472 9479 = some ⟨9479⟩ ∧
    (9479 : Nat) &&& 7 = 7 ∧
    array_get lookup_interesting ((((9472 : Nat) &&& 7 : Nat) : Int) - 1) = none ∧
    array_get lookup_interesting ((((9479 : Nat) &&& 7 : Nat) : Int) - 1) = none ∧
    datatype_timestamp.hash (fun _ => 0) ⟨9472⟩ (encode 3661) = none ∧
    datatype_timestamp.hash (fun _ => 0) ⟨9479⟩ (encode 3661) = none := by
  decide

/-- C12, amended: the constructor accepts a tag exactly when the container type
of the tag is the generic timestamp type, and the instance stores the tag
unchanged; when the container type does not depend on the low 3 bits, a tag is
accepted or rejected together with every tag that differs from it in the low 3
bits only. For an accepted tag whose bucket selector is in `[1,6]` the table
index `selector - 1` of `hash` lies within the six-entry table. -/
theorem C12_constructor_checks_family_only (CT : hyperdatatype → hyperdatatype)
    (G t : hyperdatatype) :
    (datatype_timestamp.datatype_timestamp CT G t = some ⟨t⟩ ↔ CT t = G) ∧
    (datatype_timestamp.datatype_timestamp CT G t = none ↔ CT t ≠ G) ∧
    (∀ self : datatype_timestamp, datatype_timestamp.datatype_timestamp CT G t = some self →
      self.m_type = t ∧ CT self.m_type = G) ∧
    ((∀ u v : hyperdatatype, u / 8 = v / 8 → CT u = CT v) →
      ∀ u : hyperdatatype, u / 8 = t / 8 →
        ((datatype_timestamp.datatype_timestamp CT G u).isSome
          = (datatype_timestamp.datatype_timestamp CT G t).isSome)) ∧
    (∀ self : datatype_timestamp, datatype_timestamp.datatype_timestamp CT G t = some self →
      1 ≤ self.m_type &&& 7 → self.m_type &&& 7 ≤ 6 →
      ∃ I : Int, array_get lookup_interesting (((self.m_type &&& 7 : Nat) : Int) - 1) = some I ∧
        0 ≤ ((self.m_type &&& 7 : Nat) : Int) - 1 ∧
        ((self.m_type &&& 7 : Nat) : Int) - 1 < lookup_interesting.length) := by
  unfold datatype_timestamp.datatype_timestamp
  refine ⟨?_, ?_, ?_, ?_, ?_⟩
  · by_cases h : CT t = G <;> simp [h]
  · by_cases h : CT t = G <;> simp [h]
  · intro self hs
    by_cases h : CT t = G
    · rw [if_pos h] at hs
      cases hs
      exact ⟨rfl, h⟩
    · rw [if_neg h] at hs
      cases hs
  · intro hfam u hu
    rw [hfam u t hu]
    by_cases h : CT t = G <;> simp [h]
  · intro self _ h1 h6
    obtain ⟨I, hI, _, _⟩ := selector_interval (self.m_type &&& 7) h1 h6
    have hlen : lookup_interesting.length = 6 := rfl
    rw [hlen]
    have a1 : (1 : Nat) ≤ (self.m_type &&& 7 : Nat) := h1
    have a6 : (6 : Nat) ≥ (self.m_type &&& 7) := h6
    exact ⟨I, hI, by omega, by omega⟩

/-- C13, as the claim states it, fails: with the minute selector (interval
`60`) and `t = -5` the bucket is `0`, the remainder is `-5`, and with a digest
function that returns `1000` the hash is `995`, so `hash - digest` modulo
`2^64` is `2^64 - 5`, outside `[0, 60)`. -/
theorem C13_negative_timestamp_hashes_below_digest :
    is_int64 (-5) ∧ lookup_interesting[((2 : Nat) &&& 7) - 1]? = some 60 ∧
    Int.tdiv (-5) 60 = 0 ∧
    datatype_timestamp.hash (fun _ => 1000) ⟨2⟩ (encode (-5)) = some 995 ∧
    ((995 : Int) - 1000) % 2 ^ 64 = 2 ^ 64 - 5 ∧
    ¬ ((995 : Int) - 1000) % 2 ^ 64 < 60 := by
  decide

/-- C13, amended: for a fixed bucket selector with interval `I` and every signed
64-bit `t`, `hash (encode t)` lies strictly within `I` of the digest of the
bucket `t / I`, modulo `2^64`: for `t ≥ 0` it lies in `[digest, digest + I)`,
that is `(hash - digest) mod 2^64 < I`, and for `t ≤ 0` it lies in
`(digest - I, digest]`, that is `(digest - hash) mod 2^64 < I`. -/
theorem C13_hash_within_interval_of_digest (CityHash64 : List Byte → Nat)
    (self : datatype_timestamp) (I t : Int)
    (hs : 1 ≤ self.m_type &&& 7 ∧ self.m_type &&& 7 ≤ 6)
    (hI : lookup_interesting[(self.m_type &&& 7) - 1]? = some I)
    (ht : is_int64 t) :
    ∃ h : Nat, self.hash CityHash64 (encode t) = some h ∧
      (0 ≤ t → 0 ≤ ((h : Int) - (CityHash64 (encode (t.tdiv I)) : Int)) % 2 ^ 64 ∧
        ((h : Int) - (CityHash64 (encode (t.tdiv I)) : Int)) % 2 ^ 64 < I) ∧
      (t ≤ 0 → 0 ≤ ((CityHash64 (encode (t.tdiv I)) : Int) - (h : Int)) % 2 ^ 64 ∧
        ((CityHash64 (encode (t.tdiv I)) : Int) - (h : Int)) % 2 ^ 64 < I) := by
  obtain ⟨hJ, hpos, hle⟩ := selector_interval_of_lookup self I hs hI
  obtain ⟨b1, b2, b3, b4⟩ := tmod_bounds t I hpos
  refine ⟨_, hash_eq CityHash64 self _ t I (unpack_encode t ht) hJ hpos, ?_, ?_⟩
  · intro h0
    have := b3 h0
    rw [hash_word_cast]
    generalize (CityHash64 (encode (t.tdiv I)) : Int) = d
    generalize t.tmod I = r at *
    omega
  · intro h0
    have := b4 h0
    rw [hash_word_cast]
    generalize (CityHash64 (encode (t.tdiv I)) : Int) = d
    generalize t.tmod I = r at *
    omega

/-- C13 (amended) at the minute selector, `t = -5` and a constant digest. -/
theorem C13_hash_within_interval_of_digest_witness :
    (1 ≤ (2 : Nat) &&& 7 ∧ (2 : Nat) &&& 7 ≤ 6) ∧
    lookup_interesting[((2 : Nat) &&& 7) - 1]? = some 60 ∧ is_int64 (-5) ∧
    ∃ h : Nat, datatype_timestamp.hash (fun _ => 1000) ⟨2⟩ (encode (-5)) = some h ∧
      (0 ≤ (-5 : Int) → 0 ≤ ((h : Int) - ((1000 : Nat) : Int)) % 2 ^ 64 ∧
        ((h : Int) - ((1000 : Nat) : Int)) % 2 ^ 64 < 60) ∧
      ((-5 : Int) ≤ 0 → 0 ≤ (((1000 : Nat) : Int) - (h : Int)) % 2 ^ 64 ∧
        (((1000 : Nat) : Int) - (h : Int)) % 2 ^ 64 < 60) :=
  ⟨by decide, by decide, by decide,
    C13_hash_within_interval_of_digest (fun _ => 1000) ⟨2⟩ 60 (-5)
      (by decide) (by decide) (by decide)⟩

/-- C14: within a bucket the hash is injective: for a fixed bucket selector
with interval `I` and distinct signed 64-bit `t1`, `t2` with `t1 / I = t2 / I`
(truncating), the two hashes are defined and differ. -/
theorem C14_hash_injective_within_bucket (CityHash64 : List Byte → Nat)
    (self : datatype_timestamp) (I t1 t2 : Int)
    (hs : 1 ≤ self.m_type &&& 7 ∧ self.m_type &&& 7 ≤ 6)
    (hI : lookup_interesting[(self.m_type &&& 7) - 1]? = some I)
    (h1 : is_int64 t1) (h2 : is_int64 t2)
    (hne : t1 ≠ t2) (hb : Int.tdiv t1 I = Int.tdiv t2 I) :
    ∃ a b : Nat, self.hash CityHash64 (encode t1) = some a ∧
      self.hash CityHash64 (encode t2) = some b ∧ a ≠ b := by
  obtain ⟨hJ, hpos, hle⟩ := selector_interval_of_lookup self I hs hI
  refine ⟨_, _, hash_eq CityHash64 self _ t1 I (unpack_encode t1 h1) hJ hpos,
    hash_eq CityHash64 self _ t2 I (unpack_encode t2 h2) hJ hpos, ?_⟩
  intro heq
  have hc := congrArg (fun n : Nat => (n : Int)) heq
  simp only [] at hc
  rw [hash_word_cast, hash_word_cast, hb] at hc
  obtain ⟨a1, a2, _, _⟩ := tmod_bounds t1 I hpos
  obtain ⟨c1, c2, _, _⟩ := tmod_bounds t2 I hpos
  have e1 : t1 = t2.tdiv I * I + t1.tmod I := by
    rw [← hb]
    exact (Int.tdiv_add_tmod' t1 I).symm
  have e2 : t2 = t2.tdiv I * I + t2.tmod I := (Int.tdiv_add_tmod' t2 I).symm
  generalize t2.tdiv I * I = q at e1 e2
  generalize (CityHash64 (encode (t2.tdiv I)) : Int) = d at hc
  generalize t1.tmod I = r1 at *
  generalize t2.tmod I = r2 at *
  omega

/-- C14 at the minute selector: `-5` and `5` lie in bucket `0` and hash apart. -/
theorem C14_hash_injective_within_bucket_witness :
    (1 ≤ (2 : Nat) &&& 7 ∧ (2 : Nat) &&& 7 ≤ 6) ∧
    lookup_interesting[((2 : Nat) &&& 7) - 1]? = some 60 ∧
    is_int64 (-5) ∧ is_int64 5 ∧ (-5 : Int) ≠ 5 ∧ Int.tdiv (-5) 60 = Int.tdiv 5 60 ∧
    ∃ a b : Nat, datatype_timestamp.hash (fun _ => 3) ⟨2⟩ (encode (-5)) = some a ∧
      datatype_timestamp.hash (fun _ => 3) ⟨2⟩ (encode 5) = some b ∧ a ≠ b :=
  ⟨by decide, by decide, by decide, by decide, by decide, by decide,
    C14_hash_injective_within_bucket (fun _ => 3) ⟨2⟩ 60 (-5) 5
      (by decide) (by decide) (by decide) (by decide) (by decide) (by decide)⟩

/-- C15: when `old_value` passes `validate` and every request passes
`check_args`, `apply` is well defined: the decoder's assertion holds for the old
value and for every argument, every request's name is `FUNC_SET`, so the loop
runs through and ends with a signed 64-bit integer `t`, which is the old
value's integer when there is no request and the last argument's otherwise.
The call returns `writeto + 8`, and the memory it leaves is the old memory with
exactly the 8 bytes of the encoding of `t` stored at `writeto`: address
`writeto + i` holds byte `i` of the encoding for `i < 8` and every other
address keeps its byte. -/
theorem C15_apply_well_defined (FUNC_SET : Nat) (self : datatype_timestamp)
    (old : slice) (fs : List funcall) (mem : Mem) (writeto : Nat)
    (hold : datatype_timestamp.validate old = true)
    (hfs : ∀ g ∈ fs, datatype_timestamp.check_args FUNC_SET self g = true) :
    (unpack old).isSome = true ∧
    (∀ g ∈ fs, g.name = FUNC_SET ∧ (unpack g.arg1).isSome = true) ∧
    ∃ (mem1 : Mem) (t : Int),
      datatype_timestamp.apply FUNC_SET old fs mem writeto = some (mem1, writeto + 8) ∧
      is_int64 t ∧ read mem1 writeto 8 = encode t ∧ (read mem1 writeto 8).length = 8 ∧
      (∀ a : Nat, a < writeto ∨ writeto + 8 ≤ a → mem1 a = mem a) ∧
      (∃ u : Int, unpack old = some u ∧ is_int64 u ∧
        datatype_timestamp.apply_loop FUNC_SET fs u = some t ∧ (fs = [] → t = u)) ∧
      (∀ f, fs.getLast? = some f → unpack f.arg1 = some t) ∧
      mem1 = store mem writeto (encode t) ∧
      (∀ i : Nat, i < 8 → (encode t)[i]? = some (mem1 (writeto + i))) := by
  have hfs2 : ∀ g ∈ fs, g.name = FUNC_SET ∧ datatype_timestamp.validate g.arg1 = true :=
    fun g hg => check_args_sound FUNC_SET self g (hfs g hg)
  obtain ⟨u, hu, hu2⟩ := unpack_of_validate old hold
  refine ⟨?_, ?_, ?_⟩
  · rw [hu]
    rfl
  · intro g hg
    obtain ⟨v, hv, _⟩ := unpack_of_validate g.arg1 (hfs2 g hg).2
    exact ⟨(hfs2 g hg).1, by rw [hv]; rfl⟩
  · obtain ⟨t, h1, h2, h3, h4⟩ := apply_loop_valid FUNC_SET fs u hu2 hfs2
    have happ : datatype_timestamp.apply FUNC_SET old fs mem writeto
        = some (store mem writeto (encode t), writeto + 8) := by
      simp [datatype_timestamp.apply, hu, h1, pack64le]
    refine ⟨_, t, happ, h2, read_store_encode mem writeto t, read_length _ _ _, ?_,
      ⟨u, hu, hu2, h1, h3⟩, h4, rfl, ?_⟩
    · intro a ha
      exact store_outside mem writeto (encode t) a (by rw [encode_length]; exact ha)
    · intro i hi
      have hlen : i < (encode t).length := by rw [encode_length]; exact hi
      simp [store, List.getElem?_eq_getElem hlen]

/-- C15 at the tag `3`, `old = encode 5` and the requests `SET []`,
`SET (encode 7)`, writing at address `2` of a memory filled with `9`: the final
integer is `7` and bytes `2 .. 9` become its encoding. -/
theorem C15_apply_well_defined_witness :
    datatype_timestamp.validate (encode 5) = true ∧
    (∀ g ∈ [(⟨1, [], 3⟩ : funcall), ⟨1, encode 7, 3⟩],
      datatype_timestamp.check_args 1 ⟨3⟩ g = true) ∧
    ∃ mem1 : Mem,
      datatype_timestamp.apply 1 (encode 5) [⟨1, [], 3⟩, ⟨1, encode 7, 3⟩] (fun _ => 9) 2
        = some (mem1, 2 + 8) ∧
      mem1 = store (fun _ => 9) 2 (encode 7) ∧
      read mem1 0 12 = [9, 9, 7, 0, 0, 0, 0, 0, 0, 0, 9, 9] :=
  ⟨by decide, by decide, by
    obtain ⟨mem1, t, h1, _, _, _, _, _, h7, h8, _⟩ :=
      (C15_apply_well_defined 1 ⟨3⟩ (encode 5) [⟨1, [], 3⟩, ⟨1, encode 7, 3⟩] (fun _ => 9) 2
        (by decide) (by decide)).2.2
    have ht : t = 7 := by
      have h := h7 ⟨1, encode 7, 3⟩ (by decide)
      have h0 : unpack (encode 7) = some 7 := by decide
      change unpack (encode 7) = some t at h
      rw [h0] at h
      exact (Option.some.inj h).symm
    subst ht
    refine ⟨mem1, h1, h8, ?_⟩
    rw [h8]
    decide⟩

/-- C16: the bytes `apply` writes are the 8-byte little-endian two's-complement
encoding of the final integer, and decoding them gives that integer back; the
final integer is the old value's when there is no request and the last
argument's otherwise. When the last argument is 8 bytes long the bytes written
equal it byte for byte. Decoding then encoding is the identity on 8-byte values
and encoding then decoding is the identity on signed 64-bit integers. -/
theorem C16_apply_output_is_exact_encoding (FUNC_SET : Nat)
    (old : slice) (fs : List funcall) (mem : Mem) (writeto : Nat)
    (hold : datatype_timestamp.validate old = true)
    (hfs : ∀ g ∈ fs, g.name = FUNC_SET ∧ datatype_timestamp.validate g.arg1 = true) :
    (∃ (mem1 : Mem) (t : Int),
      datatype_timestamp.apply FUNC_SET old fs mem writeto = some (mem1, writeto + 8) ∧
      is_int64 t ∧ read mem1 writeto 8 = encode t ∧
      unpack (read mem1 writeto 8) = some t ∧
      (fs = [] → unpack old = some t) ∧
      (∀ f, fs.getLast? = some f →
        unpack f.arg1 = some t ∧ (f.arg1.length = 8 → read mem1 writeto 8 = f.arg1))) ∧
    (∀ v : slice, v.length = 8 → encode (unpack64le v) = v) ∧
    (∀ x : Int, is_int64 x → unpack64le (encode x) = x) := by
  refine ⟨?_, encode_unpack64le, unpack64le_encode⟩
  obtain ⟨t, ht, happ, h3, h4⟩ := apply_valid FUNC_SET old fs mem writeto hold hfs
  have hr := read_store_encode mem writeto t
  refine ⟨_, t, happ, ht, hr, by rw [hr]; exact unpack_encode t ht, h3, ?_⟩
  intro f hf
  refine ⟨h4 f hf, fun hlen => ?_⟩
  rw [hr]
  exact encode_of_unpack f.arg1 t hlen (h4 f hf)

/-- C16 at `old = encode 9` and the requests `SET []`, `SET (encode (-2))`. -/
theorem C16_apply_output_is_exact_encoding_witness :
    datatype_timestamp.validate (encode 9) = true ∧
    (∀ g ∈ [(⟨1, [], 3⟩ : funcall), ⟨1, encode (-2), 3⟩],
      g.name = 1 ∧ datatype_timestamp.validate g.arg1 = true) ∧
    ∃ (mem1 : Mem) (t : Int),
      datatype_timestamp.apply 1 (encode 9) [⟨1, [], 3⟩, ⟨1, encode (-2), 3⟩] (fun _ => 0) 0
        = some (mem1, 0 + 8) ∧
      is_int64 t ∧ read mem1 0 8 = encode t ∧
      unpack (read mem1 0 8) = some t ∧
      (([⟨1, [], 3⟩, ⟨1, encode (-2), 3⟩] : List funcall) = [] → unpack (encode 9) = some t) ∧
      (∀ f, ([⟨1, [], 3⟩, ⟨1, encode (-2), 3⟩] : List funcall).getLast? = some f →
        unpack f.arg1 = some t ∧ (f.arg1.length = 8 → read mem1 0 8 = f.arg1)) :=
  ⟨by decide, by decide,
    (C16_apply_output_is_exact_encoding 1 (encode 9) [⟨1, [], 3⟩, ⟨1, encode (-2), 3⟩]
      (fun _ => 0) 0 (by decide) (by decide)).1⟩

/-- C17: the interval table is `[1, 60, 3600, 86400, 604800, 18144000]`: six
positive, strictly increasing entries. Hence for every bucket selector in
`[1,6]` the divisor `hash` reads is positive, and for every signed 64-bit `t`
both `t % I` and `t / I` are defined and are signed 64-bit values. -/
theorem C17_interval_table :
    lookup_interesting = [1, 60, 3600, 86400, 604800, 18144000] ∧
    lookup_interesting.length = 6 ∧
    (∀ I ∈ lookup_interesting, 0 < I) ∧
    List.Pairwise (fun a b : Int => a < b) lookup_interesting ∧
    (∀ self : datatype_timestamp, 1 ≤ self.m_type &&& 7 → self.m_type &&& 7 ≤ 6 →
      ∃ I : Int,
        array_get lookup_interesting (((self.m_type &&& 7 : Nat) : Int) - 1) = some I ∧
        I ≠ 0 ∧ 0 < I ∧
        ∀ t : Int, is_int64 t →
          smod64 t I = some (t.tmod I) ∧ sdiv64 t I = some (t.tdiv I) ∧
          is_int64 (t.tmod I) ∧ is_int64 (t.tdiv I)) := by
  refine ⟨by decide, by decide, by decide, by decide, ?_⟩
  intro self h1 h6
  obtain ⟨I, hI, _, hpos, hle⟩ := selector_interval_bounded (self.m_type &&& 7) h1 h6
  refine ⟨I, hI, by omega, hpos, ?_⟩
  intro t ht
  have hc : ¬ (I = 0 ∨ (t = -(2 ^ 63) ∧ I = -1)) := by omega
  obtain ⟨b1, b2, _, _⟩ := tmod_bounds t I hpos
  refine ⟨by unfold smod64; rw [if_neg hc], by unfold sdiv64; rw [if_neg hc], ?_,
    tdiv_is_int64 t I ht hpos⟩
  unfold is_int64
  omega

/-- C18: `hash` is consistent with the ordering: for valid `a`, `b` and a bucket
selector in `[1,6]`, `compare a b = 0` implies that both hashes are defined and
equal. The empty value and the 8-byte encoding of `0` are different byte
strings that compare equal and hash equal. -/
theorem C18_compare_equal_implies_hash_equal (CityHash64 : List Byte → Nat)
    (self : datatype_timestamp) (a b : slice)
    (ha : datatype_timestamp.validate a = true)
    (hb : datatype_timestamp.validate b = true)
    (hs : 1 ≤ self.m_type &&& 7 ∧ self.m_type &&& 7 ≤ 6)
    (hc : datatype_timestamp.compare a b = some 0) :
    (∃ h : Nat, self.hash CityHash64 a = some h ∧ self.hash CityHash64 b = some h) ∧
    (datatype_timestamp.validate [] = true ∧ datatype_timestamp.validate (encode 0) = true ∧
      ([] : slice) ≠ encode 0 ∧
      datatype_timestamp.compare [] (encode 0) = some 0 ∧
      (∃ h : Nat, self.hash CityHash64 [] = some h ∧
        self.hash CityHash64 (encode 0) = some h)) := by
  obtain ⟨I, hI, _, hpos⟩ := selector_interval (self.m_type &&& 7) hs.1 hs.2
  refine ⟨?_, by decide, by decide, by decide, by decide, ?_⟩
  · obtain ⟨x, hx, _⟩ := unpack_of_validate a ha
    obtain ⟨y, hy, _⟩ := unpack_of_validate b hb
    have hxy : x = y := by
      unfold datatype_timestamp.compare at hc
      rw [compare_eq a b x y hx hy] at hc
      have h0 := Option.some.inj hc
      split_ifs at h0 <;> omega
    subst hxy
    exact ⟨_, hash_eq CityHash64 self a x I hx hI hpos, hash_eq CityHash64 self b x I hy hI hpos⟩
  · exact ⟨_, hash_eq CityHash64 self [] 0 I unpack_nil hI hpos,
      hash_eq CityHash64 self (encode 0) 0 I (by decide) hI hpos⟩

/-- C18 at the hour selector, the empty value and `encode 0`. -/
theorem C18_compare_equal_implies_hash_equal_witness :
    datatype_timestamp.validate [] = true ∧
    datatype_timestamp.validate (encode 0) = true ∧
    (1 ≤ (3 : Nat) &&& 7 ∧ (3 : Nat) &&& 7 ≤ 6) ∧
    datatype_timestamp.compare [] (encode 0) = some 0 ∧
    ∃ h : Nat, datatype_timestamp.hash (fun bs => bs.length) ⟨3⟩ [] = some h ∧
      datatype_timestamp.hash (fun bs => bs.length) ⟨3⟩ (encode 0) = some h :=
  ⟨by decide, by decide, by decide, by decide,
    (C18_compare_equal_implies_hash_equal (fun bs => bs.length) ⟨3⟩ [] (encode 0)
      (by decide) (by decide) (by decide) (by decide)).1⟩

/-- C19: for a valid old value and requests that all pass `check_args`, the
value `r` that `apply` writes has length exactly 8, is never the empty encoding,
and passes `validate`; it is eight zero bytes when `old` and the request
sequence are both empty and when the last argument is empty. `apply` is
idempotent on it: `apply r []` and `apply r fs` both write `r` again. -/
theorem C19_apply_canonicalises (FUNC_SET : Nat) (self : datatype_timestamp)
    (old : slice) (fs : List funcall) (mem : Mem) (writeto : Nat)
    (hold : datatype_timestamp.validate old = true)
    (hfs : ∀ g ∈ fs, datatype_timestamp.check_args FUNC_SET self g = true) :
    ∃ (r : slice) (mem1 : Mem),
      datatype_timestamp.apply FUNC_SET old fs mem writeto = some (mem1, writeto + 8) ∧
      r = read mem1 writeto 8 ∧
      r.length = 8 ∧ r ≠ [] ∧ datatype_timestamp.validate r = true ∧
      (old = [] → fs = [] → r = [0, 0, 0, 0, 0, 0, 0, 0]) ∧
      (∀ f, fs.getLast? = some f → f.arg1 = [] → r = [0, 0, 0, 0, 0, 0, 0, 0]) ∧
      (∀ (mem2 : Mem) (w2 : Nat), ∃ mem3 : Mem,
        datatype_timestamp.apply FUNC_SET r [] mem2 w2 = some (mem3, w2 + 8) ∧
        read mem3 w2 8 = r) ∧
      (∀ (mem2 : Mem) (w2 : Nat), ∃ mem3 : Mem,
        datatype_timestamp.apply FUNC_SET r fs mem2 w2 = some (mem3, w2 + 8) ∧
        read mem3 w2 8 = r) := by
  have hfs2 : ∀ g ∈ fs, g.name = FUNC_SET ∧ datatype_timestamp.validate g.arg1 = true :=
    fun g hg => check_args_sound FUNC_SET self g (hfs g hg)
  obtain ⟨t, ht, happ, h3, h4⟩ := apply_valid FUNC_SET old fs mem writeto hold hfs2
  have hr := read_store_encode mem writeto t
  have hlen : (encode t).length = 8 := encode_length t
  have hval : datatype_timestamp.validate (encode t) = true := (validate_iff _).2 (Or.inl hlen)
  have hz : encode 0 = [0, 0, 0, 0, 0, 0, 0, 0] := by decide
  refine ⟨encode t, _, happ, hr.symm, hlen, ?_, hval, ?_, ?_, ?_, ?_⟩
  · intro h
    rw [h] at hlen
    simp at hlen
  · intro ho hf
    subst ho
    have h0 := h3 hf
    rw [unpack_nil] at h0
    rw [← Option.some.inj h0, hz]
  · intro f hf harg
    have h0 := h4 f hf
    rw [harg, unpack_nil] at h0
    rw [← Option.some.inj h0, hz]
  · intro mem2 w2
    exact ⟨_, apply_nil FUNC_SET (encode t) t mem2 w2 (unpack_encode t ht),
      read_store_encode mem2 w2 t⟩
  · intro mem2 w2
    obtain ⟨u, _, happ2, k3, k4⟩ := apply_valid FUNC_SET (encode t) fs mem2 w2 hval hfs2
    have hut : u = t := by
      cases hl : fs.getLast? with
      | none =>
        have hnil : fs = [] := List.getLast?_eq_none_iff.1 hl
        have h0 := k3 hnil
        rw [unpack_encode t ht] at h0
        exact (Option.some.inj h0).symm
      | some f =>
        have h0 := h4 f hl
        rw [k4 f hl] at h0
        exact Option.some.inj h0
    subst hut
    exact ⟨_, happ2, read_store_encode mem2 w2 u⟩

/-- C19 at the tag `3`, `old = encode 5` and the requests `SET (encode 7)`,
`SET []`. -/
theorem C19_apply_canonicalises_witness :
    datatype_timestamp.validate (encode 5) = true ∧
    (∀ g ∈ [(⟨1, encode 7, 3⟩ : funcall), ⟨1, [], 3⟩],
      datatype_timestamp.check_args 1 ⟨3⟩ g = true) ∧
    ∃ (r : slice) (mem1 : Mem),
      datatype_timestamp.apply 1 (encode 5) [⟨1, encode 7, 3⟩, ⟨1, [], 3⟩] (fun _ => 9) 2
        = some (mem1, 2 + 8) ∧
      r = read mem1 2 8 ∧ r.length = 8 ∧ r ≠ [] ∧ datatype_timestamp.validate r = true :=
  ⟨by decide, by decide, by
    obtain ⟨r, mem1, h1, h2, h3, h4, h5, _⟩ :=
      C19_apply_canonicalises 1 ⟨3⟩ (encode 5) [⟨1, encode 7, 3⟩, ⟨1, [], 3⟩] (fun _ => 9) 2
        (by decide) (by decide)
    exact ⟨r, mem1, h1, h2, h3, h4, h5⟩⟩

/-- C20: iterating `step` over a buffer of `n` bytes at address `base`
terminates and partitions it. The call at offset `8 * k` succeeds for every
`k < n / 8`, yields bytes `[8k, 8k + 8)` of the buffer (8 bytes, which pass
`validate`) and moves the cursor to offset `8 * (k + 1)`; the call at offset
`8 * (n / 8)` fails and leaves the cursor there, with `n % 8` bytes left. So the
loop that calls `step` until it fails ends, given more than `n / 8` calls, with
exactly `n / 8` elements. -/
theorem C20_step_partitions_buffer (mem : Mem) (base n : Nat) (elem : slice)
    (hfit : base + n < 2 ^ 64) :
    (∀ k : Nat, k < n / 8 →
      datatype_timestamp.step mem (base + 8 * k) (base + n) elem
        = (true, base + 8 * (k + 1), read mem (base + 8 * k) 8) ∧
      (read mem (base + 8 * k) 8).length = 8 ∧
      datatype_timestamp.validate (read mem (base + 8 * k) 8) = true ∧
      read mem (base + 8 * k) 8 = ((read mem base n).drop (8 * k)).take 8) ∧
    datatype_timestamp.step mem (base + 8 * (n / 8)) (base + n) elem
      = (false, base + 8 * (n / 8), elem) ∧
    (base + n) - (base + 8 * (n / 8)) = n % 8 ∧
    (∀ fuel : Nat, n / 8 < fuel →
      step_all mem (base + n) fuel base elem
        = some ((List.range (n / 8)).map (fun k => read mem (base + 8 * k) 8),
            base + 8 * (n / 8))) ∧
    ((List.range (n / 8)).map (fun k => read mem (base + 8 * k) 8)).length = n / 8 := by
  refine ⟨?_, ?_, by omega, ?_, by simp⟩
  · intro k hk
    refine ⟨?_, read_length _ _ _, ?_, ?_⟩
    · rw [step_long mem (base + 8 * k) (base + n) elem (by omega) (by omega) (by omega)]
      refine Prod.ext rfl (Prod.ext ?_ rfl)
      simp only []
      omega
    · exact (validate_iff _).2 (Or.inl (read_length _ _ _))
    · exact (read_drop_take mem base n (8 * k) 8 (by omega)).symm
  · exact step_short mem (base + 8 * (n / 8)) (base + n) elem (by omega) (by omega)
  · intro fuel hf
    exact step_all_eq mem (base + n) hfit (n / 8) fuel base elem (by omega) (by omega) hf

/-- C20 on the 21 bytes at addresses `3 .. 24`: two elements, then failure at
address `19` with 5 bytes left. -/
theorem C20_step_partitions_buffer_witness :
    3 + 21 < 2 ^ 64 ∧
    step_all (fun a => Fin.ofNat a) (3 + 21) 3 3 []
      = some ((List.range (21 / 8)).map (fun k => read (fun a => Fin.ofNat a) (3 + 8 * k) 8),
          3 + 8 * (21 / 8)) ∧
    (3 + 21) - (3 + 8 * (21 / 8)) = 21 % 8 :=
  ⟨by decide,
    (C20_step_partitions_buffer (fun a => Fin.ofNat a) 3 21 [] (by decide)).2.2.2.1 3
      (by decide),
    by decide⟩

end HyperDex
